import Mathlib

/-!
# Verification of the `bitwise-flag` library core

A shallow embedding of `src/lib/FlagRegistry.ts` and `src/lib/Flag.ts`:
a registry assigning one bit (`1n << i`) per distinct flag name, and an
immutable flag value object wrapping a validated `bigint` bitmask.

JavaScript `bigint` is modelled as `Int`; its two's-complement bitwise
operators `&`, `|`, `~` are `bigAnd`, `bigOr`, `bigNot` below, proved equal
to Mathlib's `Int.land`, `Int.lor`, `Int.lnot`, which have exactly the
arbitrary-precision two's-complement semantics of `bigint`.
`throw` is modelled with `Except FlagError`.
-/

set_option autoImplicit false

namespace BitwiseFlag

deriving instance DecidableEq for Except

/-- `a AND NOT b` on `Nat`: clearing `b`'s bits from `a`. Stated through the
kernel-reducible `^^^`/`&&&`; equal to `Nat.ldiff` (see `natLdiff_eq`). -/
def natLdiff (a b : Nat) : Nat := a ^^^ (a &&& b)

/-- `bigint` bitwise `&` (arbitrary-precision two's complement), kernel
reducible; equal to Mathlib's `Int.land` (see `bigAnd_eq`). -/
def bigAnd : Int → Int → Int
  | Int.ofNat m, Int.ofNat n => Int.ofNat (m &&& n)
  | Int.ofNat m, Int.negSucc n => Int.ofNat (natLdiff m n)
  | Int.negSucc m, Int.ofNat n => Int.ofNat (natLdiff n m)
  | Int.negSucc m, Int.negSucc n => Int.negSucc (m ||| n)

/-- `bigint` bitwise `|`, kernel reducible; equal to Mathlib's `Int.lor`
(see `bigOr_eq`). -/
def bigOr : Int → Int → Int
  | Int.ofNat m, Int.ofNat n => Int.ofNat (m ||| n)
  | Int.ofNat m, Int.negSucc n => Int.negSucc (natLdiff n m)
  | Int.negSucc m, Int.ofNat n => Int.negSucc (natLdiff m n)
  | Int.negSucc m, Int.negSucc n => Int.negSucc (m &&& n)

/-- `bigint` bitwise `~`; equal to Mathlib's `Int.lnot` (see `bigNot_eq`). -/
def bigNot : Int → Int
  | Int.ofNat m => Int.negSucc m
  | Int.negSucc m => Int.ofNat m

/-- The errors thrown out of the library: the four `throw new Error(...)`
sites, plus the built-in `RangeError` that `BigInt(parsedValue)` throws in
`parse` when `parseInt` has overflowed to `Infinity`/`-Infinity` (a real
escape path of the code, though not one of the library's own messages). -/
inductive FlagError where
  | negativeValue (value : Int)
  | unknownFlags
  | flagNotFound (key : String)
  | cannotParse (value : String) (radix : Nat)
  | rangeError
  deriving DecidableEq

/-- `FlagsRegistry` wraps a JS `Map<TFlags, bigint>`; a JS `Map` iterates in
insertion order, so it is embedded as an insertion-ordered association list. -/
structure FlagsRegistry where
  flags : List (String × Int)
  deriving DecidableEq

namespace FlagsRegistry

/-- Insertion into a JS `Set`, element by element: an element already seen is
skipped, a new one is appended and remembered. -/
def uniqueAux (seen : List String) : List String → List String
  | [] => []
  | x :: xs =>
    if seen.contains x then uniqueAux seen xs
    else x :: uniqueAux (x :: seen) xs

/-- `const unique = <T>(arr: T[]): T[] => [...new Set<T>(arr)];`
a JS `Set` keeps the first occurrence of each element, in insertion order. -/
def unique (arr : List String) : List String := uniqueAux [] arr

/-- `FlagsRegistry.from(...flagKeys)`: dedupe the keys and give the i-th
distinct key the value `1n << BigInt(i)` (a `bigint` left shift by a
non-negative amount is exactly the `Nat` shift). -/
def fromKeys (flagKeys : List String) : FlagsRegistry :=
  ⟨(unique flagKeys).enum.map (fun p => (p.2, ((1 <<< p.1 : Nat) : Int)))⟩

/-- `keys()`. -/
def keys (r : FlagsRegistry) : List String := r.flags.map Prod.fst

/-- `values()`. -/
def values (r : FlagsRegistry) : List Int := r.flags.map Prod.snd

/-- `entries()`. -/
def entries (r : FlagsRegistry) : List (String × Int) := r.flags

/-- `get(flagName)`: `Map.get`, i.e. the value of the first matching key. -/
def get (r : FlagsRegistry) (flagName : String) : Option Int :=
  (r.flags.find? (fun p => p.1 == flagName)).map Prod.snd

end FlagsRegistry

/-- A flag value object: a registry reference plus the raw bitmask. The
`_alias` cache cell is omitted: the instance is immutable, so the cache is
observationally the computed alias (see `Flag.alias`). -/
structure Flag where
  context : FlagsRegistry
  value : Int
  deriving DecidableEq

namespace Flag

/-- The union of all bit values known to the registry:
`this.context.values().reduce((acc, value) => acc | value, 0n)`. -/
def knownFlags (context : FlagsRegistry) : Int :=
  context.values.foldl (fun acc value => bigOr acc value) 0

/-- `private validate(value)`: reject a negative bitmask, then reject
`(value & ~knownFlags) !== 0n`. -/
def validate (context : FlagsRegistry) (value : Int) : Except FlagError Unit :=
  if value < 0 then Except.error (FlagError.negativeValue value)
  else if bigAnd value (bigNot (knownFlags context)) ≠ 0 then
    Except.error FlagError.unknownFlags
  else Except.ok ()

/-- `new Flag(context, value)`: the constructor runs `validate`
synchronously, so construction is fallible. -/
def new (context : FlagsRegistry) (value : Int) : Except FlagError Flag := do
  let _ ← validate context value
  pure ⟨context, value⟩

/-- `isEmpty()`. -/
def isEmpty (f : Flag) : Bool := f.value == 0

/-- `has(flagName)`: `if (.value) return false; return ..(this.value & value);`
JS `.value` is truthy-negation: it is `true` both for `undefined` and for `0n`,
so the `value == 0` test mirrors the falsy case exactly. -/
def has (f : Flag) (flagName : String) : Bool :=
  match f.context.get flagName with
  | none => false
  | some value => if value = 0 then false else bigAnd f.value value != 0

/-- `add(flagName)`: no-op (same instance) when `has` holds, otherwise throw
for a falsy lookup, otherwise construct `this.value | value`. -/
def add (f : Flag) (flagName : String) : Except FlagError Flag :=
  if f.has flagName then Except.ok f
  else
    match f.context.get flagName with
    | none => Except.error (FlagError.flagNotFound flagName)
    | some value =>
      if value = 0 then Except.error (FlagError.flagNotFound flagName)
      else Flag.new f.context (bigOr f.value value)

/-- `remove(flagName)`: no-op (same instance) when `has` fails — note this
guard runs before the unknown-name check — otherwise throw for a falsy
lookup, otherwise construct `this.value & ~value`. -/
def remove (f : Flag) (flagName : String) : Except FlagError Flag :=
  if !f.has flagName then Except.ok f
  else
    match f.context.get flagName with
    | none => Except.error (FlagError.flagNotFound flagName)
    | some value =>
      if value = 0 then Except.error (FlagError.flagNotFound flagName)
      else Flag.new f.context (bigAnd f.value (bigNot value))

/-- `get alias()`: `EMPTY_FLAG` for bitmask zero, otherwise the registry
entries whose value is fully contained in the bitmask
(`(this.value & value) === value`), keys joined with `+` in brackets.
The `_alias` memoization always yields this value on every read. -/
def «alias» (f : Flag) : String :=
  if f.value == 0 then "EMPTY_FLAG"
  else
    let entries := f.context.entries
    let activeFlags := (entries.filter
      (fun e => bigAnd f.value e.2 == e.2)).map Prod.fst
    "[" ++ String.intercalate "+" activeFlags ++ "]"

/-- `toString()`: the template literal prints the `bigint` in decimal,
which is `Int`'s `ToString`. -/
def toString (f : Flag) : String :=
  "Flag(" ++ f.«alias» ++ ": " ++ ToString.toString f.value ++ ")"

end Flag

namespace FlagsRegistry

/-- `empty()`: `new Flag(this, 0n)`. -/
def empty (r : FlagsRegistry) : Except FlagError Flag :=
  Flag.new r 0

/-- `combine(...flagKeys)`: fold bitwise OR from `0n`, throwing inside the
fold on a falsy lookup, then construct the flag. -/
def combine (r : FlagsRegistry) (flagKeys : List String) : Except FlagError Flag := do
  let value ← flagKeys.foldlM (fun acc key =>
    match r.get key with
    | none => Except.error (FlagError.flagNotFound key)
    | some flagValue =>
      if flagValue = 0 then Except.error (FlagError.flagNotFound key)
      else pure (bigOr acc flagValue)) (0 : Int)
  Flag.new r value

end FlagsRegistry

/-- The three input shapes accepted by `parse` (the JS overloads on
`string | number | bigint`). The `number` branch is modelled for integral
inputs only: `BigInt(value)` on a non-integral number throws a `RangeError`
outside the library's own error taxonomy. -/
inductive ParseValue where
  | num (value : Int)
  | big (value : Int)
  | str (value : String)
  deriving DecidableEq

/-- ECMAScript *StrWhiteSpaceChar*: WhiteSpace (tab, VT, FF, space, NBSP,
ZWNBSP and the Unicode Zs space separators) together with the line
terminators LF, CR, LS, PS — the exact set `parseInt` trims. -/
def jsWhitespace (c : Char) : Bool :=
  [0x9, 0xA, 0xB, 0xC, 0xD, 0x20, 0xA0, 0x1680, 0x2028, 0x2029, 0x202F,
    0x205F, 0x3000, 0xFEFF].contains c.toNat ||
  (0x2000 ≤ c.toNat && c.toNat ≤ 0x200A)

/-- The possible results of `parseInt`: `NaN`, an overflow to positive or
negative infinity, or a finite integer-valued double. -/
inductive JsNumber where
  | nan
  | posInf
  | negInf
  | finite (value : Int)
  deriving DecidableEq

/-- Conversion of a non-negative mathematical integer to the nearest IEEE
754 double (round to nearest, ties to even), as ECMAScript's number
conversion performs it: exact below `2^53`; otherwise the top 53 bits are
kept and the remainder rounds, and a result of `2^1024` or more overflows
to infinity (`none`). -/
def roundNatToDouble (m : Nat) : Option Nat :=
  if m < 2 ^ 53 then some m
  else
    let e := m.log2 - 52
    let q := m >>> e
    let r := m % 2 ^ e
    let half := 2 ^ (e - 1)
    let q2 :=
      if half < r then q + 1
      else if r < half then q
      else if q % 2 = 0 then q else q + 1
    if q2 <<< e < 2 ^ 1024 then some (q2 <<< e) else none

/-- The numeric value of an ASCII digit or letter, as used by `parseInt`
(`0`-`9`, then `a`-`z` / `A`-`Z` for 10..35, case-insensitive). -/
def digitValue (c : Char) : Option Nat :=
  if '0' ≤ c ∧ c ≤ '9' then some (c.toNat - '0'.toNat)
  else if 'a' ≤ c ∧ c ≤ 'z' then some (c.toNat - 'a'.toNat + 10)
  else if 'A' ≤ c ∧ c ≤ 'Z' then some (c.toNat - 'A'.toNat + 10)
  else none

/-- Whether `c` is a valid digit in base `radix`. -/
def isRadixDigit (radix : Nat) (c : Char) : Bool :=
  match digitValue c with
  | some d => decide (d < radix)
  | none => false

/-- The value of a digit string read in base `radix`. -/
def digitsValue (radix : Nat) (ds : List Char) : Nat :=
  ds.foldl (fun acc c => acc * radix + ((digitValue c).getD 0)) 0

/-- Skip a leading `0x` / `0X`. -/
def stripHex : List Char → List Char
  | '0' :: 'x' :: rest => rest
  | '0' :: 'X' :: rest => rest
  | cs => cs

/-- Radix resolution when `parseInt` gets no (or zero) radix: base 10, unless
a `0x`/`0X` prefix selects base 16. -/
def hexOrDefault (cs : List Char) : Nat × List Char :=
  match cs with
  | '0' :: 'x' :: rest => (16, rest)
  | '0' :: 'X' :: rest => (16, rest)
  | _ => (10, cs)

/-- `parseInt`'s optional sign: a leading `-` means sign `-1`, a leading `+`
is consumed, anything else leaves the characters untouched. -/
def signSplit : List Char → Int × List Char
  | '-' :: rest => (-1, rest)
  | '+' :: rest => (1, rest)
  | cs => (1, cs)

/-- `parseInt`'s radix resolution: absent or zero means the default rules
(`hexOrDefault`); radix 16 additionally skips a `0x`/`0X` prefix; any other
radix is taken as given (the 2..36 range check happens afterwards). -/
def resolveRadix (radix : Option Nat) (cs : List Char) : Nat × List Char :=
  match radix with
  | none => hexOrDefault cs
  | some r =>
    if r = 0 then hexOrDefault cs
    else if r = 16 then (16, stripHex cs)
    else (r, cs)

/-- The digit-reading core of `parseInt`: NaN for a radix outside 2..36 or
when no leading character is a valid digit; otherwise the signed value of
the longest valid digit prefix, rounded to the nearest double (overflowing
to the appropriately signed infinity). -/
def parseIntFrom (sign : Int) (R : Nat) (cs : List Char) : JsNumber :=
  if R < 2 ∨ 36 < R then JsNumber.nan
  else
    if (cs.takeWhile (isRadixDigit R)).isEmpty then JsNumber.nan
    else
      match roundNatToDouble (digitsValue R (cs.takeWhile (isRadixDigit R))) with
      | some m => JsNumber.finite (sign * (m : Int))
      | none => if sign = 1 then JsNumber.posInf else JsNumber.negInf

/-- ECMAScript `parseInt(string, radix)`: trim leading whitespace, read an
optional sign, resolve the radix, then read the longest prefix of valid
digits — NaN exactly when that prefix is empty, and the double rounding of
the digit value beyond `2^53`, with overflow to infinity. -/
def jsParseInt (s : String) (radix : Option Nat) : JsNumber :=
  parseIntFrom (signSplit (s.data.dropWhile jsWhitespace)).1
    (resolveRadix radix (signSplit (s.data.dropWhile jsWhitespace)).2).1
    (resolveRadix radix (signSplit (s.data.dropWhile jsWhitespace)).2).2

namespace FlagsRegistry

/-- `parse(value, radix?)`: a `bigint` or (integral) `number` is adopted as
the bitmask directly; a string goes through `parseInt(value, radix)` — NaN
gives `Cannot parse value ... with radix (radix ?? 10)`, an infinity makes
`BigInt(parsedValue)` throw a `RangeError` — and every branch that obtains
an integer then constructs (and thus validates) the flag. -/
def parse (r : FlagsRegistry) (value : ParseValue) (radix : Option Nat) :
    Except FlagError Flag :=
  match value with
  | ParseValue.big v => Flag.new r v
  | ParseValue.num v => Flag.new r v
  | ParseValue.str s =>
    match jsParseInt s radix with
    | JsNumber.nan => Except.error (FlagError.cannotParse s (radix.getD 10))
    | JsNumber.posInf => Except.error FlagError.rangeError
    | JsNumber.negInf => Except.error FlagError.rangeError
    | JsNumber.finite parsedValue => Flag.new r parsedValue

end FlagsRegistry

/-- The bit value a registry associates to a name, `0n` when absent
(specification-side helper for stating what `combine` computes). -/
def bitsOf (r : FlagsRegistry) (n : String) : Int := (r.get n).getD 0

/-- Bitwise OR of the bit values of the given names, starting from zero
(specification-side helper; `combine`'s result is proved equal to it). -/
def orValues (r : FlagsRegistry) (names : List String) : Int :=
  names.foldl (fun acc n => bigOr acc (bitsOf r n)) 0

/-- The union of the bit values `1 <<< 0, …, 1 <<< (n-1)` of a registry with
`n` distinct flags (proof-side normal form of `Flag.knownFlags`). -/
def natUnion (n : Nat) : Nat :=
  (List.range n).foldl (fun acc i => acc ||| (1 <<< i)) 0

/-- The `Nat` bit value a `fromKeys` registry assigns to a name, `0` when the
name is unknown (proof-side normal form of `bitsOf`). -/
def natBit (ks : List String) (n : String) : Nat :=
  if n ∈ FlagsRegistry.unique ks
  then 1 <<< (FlagsRegistry.unique ks).indexOf n
  else 0

/-- Proof-side normal form of `orValues` over a `fromKeys` registry. -/
def natOrValues (ks : List String) (names : List String) : Nat :=
  names.foldl (fun acc n => acc ||| natBit ks n) 0

/-- Specification-side reading of "the text is an integer numeral in the
given radix": an optional sign followed by one or more digits of the radix,
spanning the whole text. -/
def isIntegerTextInRadix (s : String) (radix : Nat) : Bool :=
  let cs := s.data
  let ds := match cs with
    | '-' :: rest => rest
    | '+' :: rest => rest
    | _ => cs
  !ds.isEmpty && ds.all (isRadixDigit radix)

/-- The characters of `s` that `parseInt` reads digits from: what is left
after leading whitespace, an optional sign and (for radix 16) an optional
`0x`/`0X` prefix (specification-side helper for the parse failure law). -/
def afterIntroducers (s : String) (radix : Nat) : List Char :=
  if radix = 16
  then stripHex (signSplit (s.data.dropWhile jsWhitespace)).2
  else (signSplit (s.data.dropWhile jsWhitespace)).2

/-- Whether the text begins (after the introducers) with a digit valid in
the radix — the specification-side criterion for `parseInt` succeeding. -/
def textStartsWithDigit (s : String) (radix : Nat) : Bool :=
  match (afterIntroducers s radix).head? with
  | some c => isRadixDigit radix c
  | none => false

/-!
## Equivalence of the kernel-reducible bitwise operations with Mathlib's
-/

theorem natLdiff_eq (a b : Nat) : natLdiff a b = Nat.ldiff a b := by
  apply Nat.eq_of_testBit_eq
  intro i
  simp only [natLdiff, Nat.testBit_xor, Nat.testBit_land, Nat.testBit_ldiff]
  cases a.testBit i <;> cases b.testBit i <;> rfl

theorem bigAnd_eq (a b : Int) : bigAnd a b = Int.land a b := by
  cases a <;> cases b <;> simp [bigAnd, Int.land, natLdiff_eq]

theorem bigOr_eq (a b : Int) : bigOr a b = Int.lor a b := by
  cases a <;> cases b <;> simp [bigOr, Int.lor, natLdiff_eq]

theorem bigNot_eq (a : Int) : bigNot a = Int.lnot a := by
  cases a <;> rfl

/-!
## Bit-containment lemmas on `Nat`
-/

theorem natLdiff_testBit (a b i : Nat) :
    (natLdiff a b).testBit i = (a.testBit i && !(b.testBit i)) := by
  rw [natLdiff_eq]
  exact Nat.testBit_ldiff a b i

theorem natLdiff_eq_zero_iff {a b : Nat} :
    natLdiff a b = 0 ↔ ∀ i, a.testBit i = true → b.testBit i = true := by
  constructor
  · intro h i hi
    have h2 : (natLdiff a b).testBit i = false := by
      rw [h]; exact Nat.zero_testBit i
    rw [natLdiff_testBit, hi] at h2
    simpa using h2
  · intro h
    apply Nat.zero_of_testBit_eq_false
    intro i
    rw [natLdiff_testBit]
    cases ha : a.testBit i
    · rfl
    · rw [h i ha]; rfl

theorem natLdiff_zero_left (b : Nat) : natLdiff 0 b = 0 := by
  simp [natLdiff]

theorem natLdiff_lor_eq_zero {a b u : Nat}
    (ha : natLdiff a u = 0) (hb : natLdiff b u = 0) :
    natLdiff (a ||| b) u = 0 := by
  rw [natLdiff_eq_zero_iff] at *
  intro i hi
  rw [Nat.testBit_lor] at hi
  rcases Bool.or_eq_true_iff.mp hi with h | h
  · exact ha i h
  · exact hb i h

theorem natLdiff_natLdiff_eq_zero {a u : Nat} (b : Nat)
    (ha : natLdiff a u = 0) :
    natLdiff (natLdiff a b) u = 0 := by
  rw [natLdiff_eq_zero_iff] at *
  intro i hi
  rw [natLdiff_testBit] at hi
  exact ha i (Bool.and_elim_left hi)

theorem natLdiff_lor_right_self (a b : Nat) : natLdiff b (a ||| b) = 0 := by
  rw [natLdiff_eq_zero_iff]
  intro i hi
  rw [Nat.testBit_lor, hi]
  exact Bool.or_true _

theorem natLdiff_lor_left_self (a b : Nat) : natLdiff a (a ||| b) = 0 := by
  rw [natLdiff_eq_zero_iff]
  intro i hi
  rw [Nat.testBit_lor, hi]
  rfl

theorem natLdiff_mono_lor {a u v : Nat} (h : natLdiff a u = 0) :
    natLdiff a (u ||| v) = 0 := by
  rw [natLdiff_eq_zero_iff] at *
  intro i hi
  rw [Nat.testBit_lor, h i hi]
  rfl

theorem lor_and_self (a w : Nat) : (a ||| w) &&& w = w := by
  apply Nat.eq_of_testBit_eq
  intro i
  rw [Nat.testBit_land, Nat.testBit_lor]
  cases a.testBit i <;> cases w.testBit i <;> rfl

theorem natLdiff_and_self (m w : Nat) : (natLdiff m w) &&& w = 0 := by
  apply Nat.eq_of_testBit_eq
  intro i
  rw [Nat.testBit_land, natLdiff_testBit, Nat.zero_testBit]
  cases m.testBit i <;> cases w.testBit i <;> rfl

theorem natLdiff_natLdiff_self (m w : Nat) : natLdiff w (natLdiff m w) = w := by
  apply Nat.eq_of_testBit_eq
  intro i
  rw [natLdiff_testBit, natLdiff_testBit]
  cases m.testBit i <;> cases w.testBit i <;> rfl

theorem natLdiff_lor_absorb {w u : Nat} (h : natLdiff w u = 0) :
    w ||| u = u := by
  apply Nat.eq_of_testBit_eq
  intro i
  rw [natLdiff_eq_zero_iff] at h
  rw [Nat.testBit_lor]
  cases hw : w.testBit i
  · rfl
  · rw [h i hw]; rfl

/-!
## `unique` keeps exactly the first occurrence of each name, in order
-/

namespace FlagsRegistry

theorem mem_uniqueAux {seen l : List String} {x : String} :
    x ∈ uniqueAux seen l ↔ x ∈ l ∧ x ∉ seen := by
  induction l generalizing seen with
  | nil => simp [uniqueAux]
  | cons y ys ih =>
    rw [uniqueAux]
    by_cases h : seen.contains y = true
    · rw [if_pos h]
      have hy : y ∈ seen := by simpa using h
      rw [ih]
      simp only [List.mem_cons]
      constructor
      · rintro ⟨hm, hs⟩
        exact ⟨Or.inr hm, hs⟩
      · rintro ⟨hm | hm, hs⟩
        · exact absurd (hm ▸ hy) hs
        · exact ⟨hm, hs⟩
    · rw [if_neg h]
      have hy : y ∉ seen := by simpa using h
      simp only [List.mem_cons, ih]
      constructor
      · rintro (rfl | ⟨hm, hs⟩)
        · exact ⟨Or.inl rfl, hy⟩
        · exact ⟨Or.inr hm, fun hx => hs (Or.inr hx)⟩
      · rintro ⟨rfl | hm, hs⟩
        · exact Or.inl rfl
        · by_cases hxy : x = y
          · exact Or.inl hxy
          · exact Or.inr ⟨hm, fun hx => hx.elim hxy hs⟩

theorem mem_unique {l : List String} {x : String} :
    x ∈ unique l ↔ x ∈ l := by
  rw [unique, mem_uniqueAux]
  simp

theorem nodup_uniqueAux (seen l : List String) : (uniqueAux seen l).Nodup := by
  induction l generalizing seen with
  | nil => exact List.nodup_nil
  | cons y ys ih =>
    rw [uniqueAux]
    by_cases h : seen.contains y = true
    · rw [if_pos h]
      exact ih _
    · rw [if_neg h]
      refine List.nodup_cons.mpr ⟨?_, ih _⟩
      intro hmem
      exact (mem_uniqueAux.mp hmem).2 (List.mem_cons_self y seen)

theorem nodup_unique (l : List String) : (unique l).Nodup :=
  nodup_uniqueAux [] l

theorem uniqueAux_indexOf_pairwise (l : List String) :
    ∀ seen : List String,
      (uniqueAux seen l).Pairwise (fun a b => l.indexOf a < l.indexOf b) := by
  induction l with
  | nil =>
    intro seen
    exact List.Pairwise.nil
  | cons y ys ih =>
    intro seen
    rw [uniqueAux]
    by_cases h : seen.contains y = true
    · rw [if_pos h]
      have hy : y ∈ seen := by simpa using h
      refine (ih seen).imp_of_mem ?_
      intro a b ha hb hab
      have hay : a ≠ y := fun he => (mem_uniqueAux.mp ha).2 (he ▸ hy)
      have hby : b ≠ y := fun he => (mem_uniqueAux.mp hb).2 (he ▸ hy)
      rw [List.indexOf_cons_ne _ hay.symm, List.indexOf_cons_ne _ hby.symm]
      exact Nat.succ_lt_succ hab
    · rw [if_neg h]
      refine List.pairwise_cons.mpr ⟨?_, ?_⟩
      · intro b hb
        have hby : b ≠ y := fun he =>
          (mem_uniqueAux.mp hb).2 (he ▸ List.mem_cons_self y seen)
        rw [List.indexOf_cons_self, List.indexOf_cons_ne _ hby.symm]
        exact Nat.succ_pos _
      · refine (ih (y :: seen)).imp_of_mem ?_
        intro a b ha hb hab
        have hay : a ≠ y := fun he =>
          (mem_uniqueAux.mp ha).2 (he ▸ List.mem_cons_self y seen)
        have hby : b ≠ y := fun he =>
          (mem_uniqueAux.mp hb).2 (he ▸ List.mem_cons_self y seen)
        rw [List.indexOf_cons_ne _ hay.symm, List.indexOf_cons_ne _ hby.symm]
        exact Nat.succ_lt_succ hab

theorem unique_indexOf_pairwise (l : List String) :
    (unique l).Pairwise (fun a b => l.indexOf a < l.indexOf b) :=
  uniqueAux_indexOf_pairwise l []

/-!
## Structure of a registry built by `fromKeys`
-/

theorem keys_fromKeys (ks : List String) : (fromKeys ks).keys = unique ks := by
  show ((unique ks).enum.map _).map Prod.fst = unique ks
  rw [List.map_map]
  exact List.enum_map_snd (unique ks)

theorem values_fromKeys (ks : List String) :
    (fromKeys ks).values =
      (List.range (unique ks).length).map (fun i => ((1 <<< i : Nat) : Int)) := by
  show ((unique ks).enum.map _).map Prod.snd = _
  rw [List.map_map]
  show (unique ks).enum.map
    ((fun i => ((1 <<< i : Nat) : Int)) ∘ Prod.fst) = _
  rw [← List.map_map, List.enum_map_fst]

theorem find?_enumFrom_map (g : Nat → Int) (l : List String) (name : String) :
    ∀ k : Nat,
      ((List.enumFrom k l).map (fun p => (p.2, g p.1))).find?
          (fun p => p.1 == name) =
        if name ∈ l then some (name, g (k + l.indexOf name)) else none := by
  induction l with
  | nil =>
    intro k
    simp
  | cons y ys ih =>
    intro k
    show List.find? _ ((y, g k) :: (List.enumFrom (k + 1) ys).map _) = _
    by_cases hy : y = name
    · subst hy
      rw [List.find?_cons_of_pos _ (by simp)]
      rw [if_pos (List.mem_cons_self y ys), List.indexOf_cons_self,
        Nat.add_zero]
    · rw [List.find?_cons_of_neg _ (by simp [hy]), ih (k + 1)]
      by_cases hm : name ∈ ys
      · rw [if_pos hm, if_pos (List.mem_cons_of_mem _ hm)]
        rw [List.indexOf_cons_ne _ (by simpa using hy)]
        have : k + (ys.indexOf name + 1) = k + 1 + ys.indexOf name := by omega
        rw [Nat.succ_eq_add_one, this]
      · rw [if_neg hm, if_neg (by simp [Ne.symm hy, hm])]

theorem get_fromKeys (ks : List String) (name : String) :
    (fromKeys ks).get name =
      if name ∈ unique ks
      then some ((1 <<< (unique ks).indexOf name : Nat) : Int)
      else none := by
  show (((unique ks).enum.map _).find? _).map Prod.snd = _
  rw [show (unique ks).enum = List.enumFrom 0 (unique ks) from rfl]
  rw [find?_enumFrom_map (fun i => ((1 <<< i : Nat) : Int)) (unique ks) name 0]
  by_cases h : name ∈ unique ks
  · rw [if_pos h, if_pos h]
    simp
  · rw [if_neg h, if_neg h]
    rfl

theorem get_fromKeys_of_mem {ks : List String} {name : String}
    (h : name ∈ unique ks) :
    (fromKeys ks).get name =
      some ((1 <<< (unique ks).indexOf name : Nat) : Int) := by
  rw [get_fromKeys, if_pos h]

theorem get_fromKeys_of_not_mem {ks : List String} {name : String}
    (h : name ∉ unique ks) :
    (fromKeys ks).get name = none := by
  rw [get_fromKeys, if_neg h]

end FlagsRegistry

/-!
## Fold lemmas for bit unions, and validation laws
-/

theorem natLdiff_foldl_lor_acc {α : Type} (g : α → Nat) (l : List α) {a : Nat} :
    ∀ {acc : Nat}, natLdiff a acc = 0 →
      natLdiff a (l.foldl (fun x i => x ||| g i) acc) = 0 := by
  induction l with
  | nil => exact fun h => h
  | cons v vs ih => exact fun h => ih (natLdiff_mono_lor h)

theorem natLdiff_foldl_lor_mem {α : Type} (g : α → Nat) (l : List α) {v : α}
    (h : v ∈ l) :
    ∀ acc : Nat, natLdiff (g v) (l.foldl (fun x i => x ||| g i) acc) = 0 := by
  induction l with
  | nil => cases h
  | cons w ws ih =>
    intro acc
    rcases List.mem_cons.mp h with rfl | h2
    · exact natLdiff_foldl_lor_acc g ws (natLdiff_lor_right_self acc (g v))
    · exact ih h2 _

theorem natLdiff_foldl_lor_closed {α : Type} (g : α → Nat) {u : Nat} :
    ∀ (l : List α), (∀ x ∈ l, natLdiff (g x) u = 0) →
      ∀ {acc : Nat}, natLdiff acc u = 0 →
        natLdiff (l.foldl (fun a x => a ||| g x) acc) u = 0 := by
  intro l
  induction l with
  | nil =>
    intro _ _ hacc
    exact hacc
  | cons x xs ih =>
    intro hg acc hacc
    exact ih (fun y hy => hg y (List.mem_cons_of_mem _ hy))
      (natLdiff_lor_eq_zero hacc (hg x (List.mem_cons_self x xs)))

theorem foldl_lor_hoist {α : Type} (g : α → Nat) :
    ∀ (l : List α) (acc : Nat),
      l.foldl (fun a x => a ||| g x) acc =
        acc ||| l.foldl (fun a x => a ||| g x) 0 := by
  intro l
  induction l with
  | nil => intro acc; simp
  | cons x xs ih =>
    intro acc
    rw [List.foldl_cons, List.foldl_cons, ih (acc ||| g x), ih (0 ||| g x)]
    have h0 : (0 : Nat) ||| g x = g x := by simp
    rw [h0, Nat.lor_assoc]

theorem foldl_lor_perm {α : Type} (g : α → Nat) {l₁ l₂ : List α}
    (h : l₁.Perm l₂) :
    ∀ acc : Nat,
      l₁.foldl (fun a x => a ||| g x) acc =
        l₂.foldl (fun a x => a ||| g x) acc := by
  induction h with
  | nil => exact fun _ => rfl
  | cons x _ ih => exact fun acc => ih _
  | swap x y l =>
    intro acc
    show l.foldl _ ((acc ||| g y) ||| g x) = l.foldl _ ((acc ||| g x) ||| g y)
    rw [Nat.lor_assoc, Nat.lor_assoc, Nat.lor_comm (g y) (g x)]
  | trans _ _ ih1 ih2 => exact fun acc => (ih1 acc).trans (ih2 acc)

theorem natLdiff_shiftLeft_natUnion {i n : Nat} (h : i < n) :
    natLdiff (1 <<< i) (natUnion n) = 0 :=
  natLdiff_foldl_lor_mem (fun i => 1 <<< i) (List.range n)
    (List.mem_range.mpr h) 0

theorem foldl_bigOr_map (g : Nat → Nat) (l : List Nat) :
    ∀ acc : Nat,
      (l.map (fun i => ((g i : Nat) : Int))).foldl bigOr ((acc : Nat) : Int) =
        ((l.foldl (fun a i => a ||| g i) acc : Nat) : Int) := by
  induction l with
  | nil => exact fun _ => rfl
  | cons v vs ih => exact fun acc => ih (acc ||| g v)

namespace Flag

theorem knownFlags_fromKeys (ks : List String) :
    knownFlags (FlagsRegistry.fromKeys ks) =
      ((natUnion (FlagsRegistry.unique ks).length : Nat) : Int) := by
  rw [knownFlags, FlagsRegistry.values_fromKeys, natUnion]
  exact foldl_bigOr_map (fun i => 1 <<< i)
    (List.range (FlagsRegistry.unique ks).length) 0

theorem validate_eq_ok_iff {r : FlagsRegistry} {v : Int} :
    validate r v = Except.ok () ↔
      ¬ v < 0 ∧ bigAnd v (bigNot (knownFlags r)) = 0 := by
  rw [validate]
  split_ifs with h1 h2
  · exact iff_of_false (by simp) (fun h => h.1 h1)
  · exact iff_of_false (by simp) (fun h => h2 h.2)
  · exact iff_of_true rfl ⟨h1, not_ne_iff.mp h2⟩

theorem validate_of_neg {r : FlagsRegistry} {v : Int} (h : v < 0) :
    validate r v = Except.error (FlagError.negativeValue v) := by
  rw [validate, if_pos h]

theorem validate_of_unknown {r : FlagsRegistry} {v : Int} (h1 : ¬ v < 0)
    (h2 : bigAnd v (bigNot (knownFlags r)) ≠ 0) :
    validate r v = Except.error FlagError.unknownFlags := by
  rw [validate, if_neg h1, if_pos h2]

theorem new_of_validate_ok {r : FlagsRegistry} {v : Int}
    (h : validate r v = Except.ok ()) :
    new r v = Except.ok ⟨r, v⟩ := by
  rw [new]
  show (validate r v).bind _ = _
  rw [h]
  rfl

theorem new_of_validate_error {r : FlagsRegistry} {v : Int} {e : FlagError}
    (h : validate r v = Except.error e) :
    new r v = Except.error e := by
  rw [new]
  show (validate r v).bind _ = _
  rw [h]
  rfl

theorem new_eq_ok_iff {r : FlagsRegistry} {v : Int} {f : Flag} :
    new r v = Except.ok f ↔ validate r v = Except.ok () ∧ f = ⟨r, v⟩ := by
  cases h : validate r v with
  | ok u =>
    cases u
    rw [new_of_validate_ok h]
    constructor
    · intro he
      exact ⟨rfl, (Except.ok.injEq _ _).mp he.symm |>.symm ▸ rfl⟩
    · rintro ⟨-, rfl⟩
      rfl
  | error e =>
    rw [new_of_validate_error h]
    simp [h]

theorem validate_fromKeys_natCast (ks : List String) (a : Nat) :
    validate (FlagsRegistry.fromKeys ks) ((a : Nat) : Int) = Except.ok () ↔
      natLdiff a (natUnion (FlagsRegistry.unique ks).length) = 0 := by
  rw [validate_eq_ok_iff, knownFlags_fromKeys]
  have h1 : ¬ ((a : Nat) : Int) < 0 := by
    exact not_lt.mpr (Int.natCast_nonneg a)
  have h2 : bigAnd ((a : Nat) : Int)
      (bigNot ((natUnion (FlagsRegistry.unique ks).length : Nat) : Int)) =
        ((natLdiff a (natUnion (FlagsRegistry.unique ks).length) : Nat) : Int) :=
    rfl
  rw [h2]
  simp [h1]

end Flag

theorem Int_testBit_natCast (a i : Nat) :
    Int.testBit ((a : Nat) : Int) i = a.testBit i := rfl

theorem natLdiff_ne_zero_of_testBit {a b i : Nat}
    (ha : a.testBit i = true) (hb : b.testBit i = false) :
    natLdiff a b ≠ 0 := by
  intro h
  rw [natLdiff_eq_zero_iff] at h
  rw [h i ha] at hb
  cases hb

/-!
## `combine` and `orValues` over a `fromKeys` registry
-/

theorem foldl_bigOr_natCast {α : Type} (g : α → Nat) (l : List α) :
    ∀ acc : Nat,
      l.foldl (fun a x => bigOr a ((g x : Nat) : Int)) ((acc : Nat) : Int) =
        ((l.foldl (fun a x => a ||| g x) acc : Nat) : Int) := by
  induction l with
  | nil => exact fun _ => rfl
  | cons x xs ih => exact fun acc => ih (acc ||| g x)

theorem bitsOf_fromKeys (ks : List String) (n : String) :
    bitsOf (FlagsRegistry.fromKeys ks) n = ((natBit ks n : Nat) : Int) := by
  rw [bitsOf, natBit, FlagsRegistry.get_fromKeys]
  by_cases h : n ∈ FlagsRegistry.unique ks
  · rw [if_pos h, if_pos h]
    rfl
  · rw [if_neg h, if_neg h]
    rfl

theorem orValues_fromKeys (ks names : List String) :
    orValues (FlagsRegistry.fromKeys ks) names =
      ((natOrValues ks names : Nat) : Int) := by
  rw [orValues, natOrValues]
  have hfun : (fun (acc : Int) (n : String) =>
      bigOr acc (bitsOf (FlagsRegistry.fromKeys ks) n)) =
      fun acc n => bigOr acc ((natBit ks n : Nat) : Int) := by
    funext acc n
    rw [bitsOf_fromKeys]
  rw [hfun]
  exact foldl_bigOr_natCast (natBit ks) names 0

theorem natBit_contained (ks : List String) (n : String) :
    natLdiff (natBit ks n) (natUnion (FlagsRegistry.unique ks).length) = 0 := by
  rw [natBit]
  by_cases h : n ∈ FlagsRegistry.unique ks
  · rw [if_pos h]
    exact natLdiff_shiftLeft_natUnion (List.indexOf_lt_length.mpr h)
  · rw [if_neg h]
    exact natLdiff_zero_left _

theorem natOrValues_contained (ks names : List String) :
    natLdiff (natOrValues ks names)
      (natUnion (FlagsRegistry.unique ks).length) = 0 := by
  rw [natOrValues]
  exact natLdiff_foldl_lor_closed (natBit ks) names
    (fun x _ => natBit_contained ks x) (natLdiff_zero_left _)

theorem natOrValues_perm (ks : List String) {names₁ names₂ : List String}
    (h : names₁.Perm names₂) :
    natOrValues ks names₁ = natOrValues ks names₂ := by
  rw [natOrValues, natOrValues]
  exact foldl_lor_perm (natBit ks) h 0

theorem natOrValues_cons_mem (ks : List String) {n : String}
    {names : List String} (h : n ∈ names) :
    natOrValues ks (n :: names) = natOrValues ks names := by
  rw [natOrValues, natOrValues, List.foldl_cons]
  have h0 : (0 : Nat) ||| natBit ks n = natBit ks n := by simp
  rw [h0, foldl_lor_hoist (natBit ks) names (natBit ks n)]
  exact natLdiff_lor_absorb (natLdiff_foldl_lor_mem (natBit ks) names h 0)

theorem get_fromKeys_bit_ne_zero {ks : List String} {n : String}
    (h : n ∈ FlagsRegistry.unique ks) :
    ¬ (((1 <<< (FlagsRegistry.unique ks).indexOf n : Nat) : Int) = 0) := by
  rw [Int.natCast_eq_zero, Nat.one_shiftLeft]
  exact Nat.pos_iff_ne_zero.mp (Nat.two_pow_pos _)

theorem foldlM_combine_known (ks : List String) :
    ∀ names : List String, (∀ n ∈ names, n ∈ FlagsRegistry.unique ks) →
    ∀ acc : Int,
      List.foldlM (fun acc key =>
        match (FlagsRegistry.fromKeys ks).get key with
        | none => Except.error (FlagError.flagNotFound key)
        | some flagValue =>
          if flagValue = 0 then Except.error (FlagError.flagNotFound key)
          else pure (bigOr acc flagValue)) acc names =
      Except.ok (names.foldl
        (fun a n => bigOr a (bitsOf (FlagsRegistry.fromKeys ks) n)) acc) := by
  intro names
  induction names with
  | nil =>
    intro _ acc
    rfl
  | cons n ns ih =>
    intro h acc
    have hn : n ∈ FlagsRegistry.unique ks := h n (List.mem_cons_self n ns)
    have hget := FlagsRegistry.get_fromKeys_of_mem hn
    have hbits : bitsOf (FlagsRegistry.fromKeys ks) n =
        ((1 <<< (FlagsRegistry.unique ks).indexOf n : Nat) : Int) := by
      rw [bitsOf, hget]
      rfl
    simp only [List.foldlM_cons, hget]
    rw [if_neg (get_fromKeys_bit_ne_zero hn)]
    rw [pure_bind]
    rw [List.foldl_cons, hbits]
    exact ih (fun m hm => h m (List.mem_cons_of_mem _ hm)) _

theorem foldlM_combine_unknown (ks : List String) :
    ∀ names : List String, (∃ n ∈ names, n ∉ FlagsRegistry.unique ks) →
    ∀ acc : Int, ∃ m, m ∈ names ∧ m ∉ FlagsRegistry.unique ks ∧
      List.foldlM (fun acc key =>
        match (FlagsRegistry.fromKeys ks).get key with
        | none => Except.error (FlagError.flagNotFound key)
        | some flagValue =>
          if flagValue = 0 then Except.error (FlagError.flagNotFound key)
          else pure (bigOr acc flagValue)) acc names =
      Except.error (FlagError.flagNotFound m) := by
  intro names
  induction names with
  | nil =>
    rintro ⟨n, hn, -⟩
    cases hn
  | cons n ns ih =>
    intro h acc
    by_cases hn : n ∈ FlagsRegistry.unique ks
    · have hget := FlagsRegistry.get_fromKeys_of_mem hn
      have hns : ∃ m ∈ ns, m ∉ FlagsRegistry.unique ks := by
        obtain ⟨m, hm, hmk⟩ := h
        rcases List.mem_cons.mp hm with rfl | hm2
        · exact absurd hn hmk
        · exact ⟨m, hm2, hmk⟩
      obtain ⟨m, hm, hmk, heq⟩ := ih hns (bigOr acc
        ((1 <<< (FlagsRegistry.unique ks).indexOf n : Nat) : Int))
      refine ⟨m, List.mem_cons_of_mem _ hm, hmk, ?_⟩
      simp only [List.foldlM_cons, hget]
      rw [if_neg (get_fromKeys_bit_ne_zero hn)]
      rw [pure_bind]
      exact heq
    · have hget := FlagsRegistry.get_fromKeys_of_not_mem hn
      refine ⟨n, List.mem_cons_self n ns, hn, ?_⟩
      simp only [List.foldlM_cons, hget]
      rfl

/-!
## Bit algebra for `add`/`remove`/`has`
-/

theorem bigAnd_bigOr_self_ne_zero (a : Int) {w : Nat} (hw : w ≠ 0) :
    bigAnd (bigOr a ((w : Nat) : Int)) ((w : Nat) : Int) ≠ 0 := by
  show bigAnd (bigOr a (Int.ofNat w)) (Int.ofNat w) ≠ 0
  cases a with
  | ofNat m =>
    show Int.ofNat ((m ||| w) &&& w) ≠ 0
    rw [lor_and_self]
    simpa using hw
  | negSucc m =>
    show Int.ofNat (natLdiff w (natLdiff m w)) ≠ 0
    rw [natLdiff_natLdiff_self]
    simpa using hw

theorem bigAnd_clear_self_eq_zero (a : Int) (w : Nat) :
    bigAnd (bigAnd a (bigNot ((w : Nat) : Int))) ((w : Nat) : Int) = 0 := by
  show bigAnd (bigAnd a (bigNot (Int.ofNat w))) (Int.ofNat w) = 0
  cases a with
  | ofNat m =>
    show Int.ofNat ((natLdiff m w) &&& w) = 0
    rw [natLdiff_and_self]
    rfl
  | negSucc m =>
    show Int.ofNat (natLdiff w (m ||| w)) = 0
    rw [natLdiff_lor_right_self]
    rfl

theorem get_fromKeys_some {ks : List String} {n : String} {v : Int}
    (h : (FlagsRegistry.fromKeys ks).get n = some v) :
    ∃ w : Nat, v = ((w : Nat) : Int) ∧ w ≠ 0 ∧
      natLdiff w (natUnion (FlagsRegistry.unique ks).length) = 0 := by
  rw [FlagsRegistry.get_fromKeys] at h
  by_cases hm : n ∈ FlagsRegistry.unique ks
  · rw [if_pos hm] at h
    refine ⟨1 <<< (FlagsRegistry.unique ks).indexOf n,
      (Option.some.inj h).symm, ?_,
      natLdiff_shiftLeft_natUnion (List.indexOf_lt_length.mpr hm)⟩
    rw [Nat.one_shiftLeft]
    exact Nat.pos_iff_ne_zero.mp (Nat.two_pow_pos _)
  · rw [if_neg hm] at h
    cases h

theorem has_of_get_some (f : Flag) {n : String} {v : Int}
    (hget : f.context.get n = some v) (hv : ¬ v = 0) :
    f.has n = (bigAnd f.value v != 0) := by
  simp [Flag.has, hget, hv]

theorem combine_fromKeys_of_known {ks names : List String}
    (h : ∀ n ∈ names, n ∈ FlagsRegistry.unique ks) :
    (FlagsRegistry.fromKeys ks).combine names =
      Except.ok ⟨FlagsRegistry.fromKeys ks,
        orValues (FlagsRegistry.fromKeys ks) names⟩ := by
  have hval : Flag.validate (FlagsRegistry.fromKeys ks)
      (orValues (FlagsRegistry.fromKeys ks) names) = Except.ok () := by
    rw [orValues_fromKeys]
    exact (Flag.validate_fromKeys_natCast ks _).mpr
      (natOrValues_contained ks names)
  rw [FlagsRegistry.combine, foldlM_combine_known ks names h 0]
  exact Flag.new_of_validate_ok hval

/-- The alias filter over `entries` agrees with filtering the `keys` by the
predicate applied to each key's `get` value, whenever the keys are
duplicate-free. -/
theorem filter_assoc_keys (p : Int → Bool) :
    ∀ l : List (String × Int), (l.map Prod.fst).Nodup →
      (l.filter (fun e => p e.2)).map Prod.fst =
        (l.map Prod.fst).filter (fun n =>
          match (l.find? (fun q => q.1 == n)).map Prod.snd with
          | some v => p v
          | none => false) := by
  intro l
  induction l with
  | nil => intro _; rfl
  | cons e t ih =>
    intro hnd
    obtain ⟨hhead, htail⟩ := List.nodup_cons.mp hnd
    have hfind_head : ((e :: t).find? (fun q => q.1 == e.1)).map Prod.snd =
        some e.2 := by
      rw [List.find?_cons_of_pos _ (by simp)]
      rfl
    have hcongr : ∀ n ∈ t.map Prod.fst,
        (match ((e :: t).find? (fun q => q.1 == n)).map Prod.snd with
          | some v => p v
          | none => false) =
        (match (t.find? (fun q => q.1 == n)).map Prod.snd with
          | some v => p v
          | none => false) := by
      intro n hn
      have hne : ¬ e.1 = n := fun he => hhead (he ▸ hn)
      rw [List.find?_cons_of_neg _ (by simp [hne])]
    have hpe : (match ((e :: t).find? (fun q => q.1 == e.1)).map Prod.snd with
        | some v => p v
        | none => false) = p e.2 := by
      rw [hfind_head]
    rw [List.map_cons, List.filter_cons, List.filter_cons, hpe,
      List.filter_congr hcongr]
    cases hp : p e.2 with
    | true =>
      rw [if_pos rfl, if_pos rfl, List.map_cons]
      exact congrArg (e.1 :: ·) (ih htail)
    | false =>
      rw [if_neg (by simp), if_neg (by simp)]
      exact ih htail

theorem land_two_pow_ne_zero_iff (m i : Nat) :
    m &&& 2 ^ i ≠ 0 ↔ m.testBit i = true := by
  constructor
  · intro h
    by_contra hm
    apply h
    apply Nat.zero_of_testBit_eq_false
    intro j
    rw [Nat.testBit_land]
    by_cases hj : i = j
    · subst hj
      rw [Bool.not_eq_true] at hm
      rw [hm]
      rfl
    · rw [Nat.testBit_two_pow_of_ne hj]
      exact Bool.and_false _
  · intro h hz
    have hb : (m &&& 2 ^ i).testBit i = false := by
      rw [hz]
      exact Nat.zero_testBit i
    rw [Nat.testBit_land, h, Nat.testBit_two_pow_self] at hb
    cases hb

theorem natLdiff_two_pow_ne_zero_iff (m i : Nat) :
    natLdiff (2 ^ i) m ≠ 0 ↔ m.testBit i = false := by
  constructor
  · intro h
    by_contra hm
    apply h
    rw [natLdiff_eq_zero_iff]
    intro j hj
    have hij : i = j := by
      by_contra hij
      rw [Nat.testBit_two_pow_of_ne hij] at hj
      cases hj
    subst hij
    cases h2 : m.testBit i
    · exact absurd h2 hm
    · rfl
  · intro h hz
    have hb : (natLdiff (2 ^ i) m).testBit i = false := by
      rw [hz]
      exact Nat.zero_testBit i
    rw [natLdiff_testBit, Nat.testBit_two_pow_self, h] at hb
    cases hb

theorem bigAnd_two_pow_ne_zero_iff (a : Int) (i : Nat) :
    bigAnd a ((2 ^ i : Nat) : Int) ≠ 0 ↔ Int.testBit a i = true := by
  cases a with
  | ofNat m =>
    show ¬ ((m &&& 2 ^ i : Nat) : Int) = 0 ↔ Nat.testBit m i = true
    rw [Int.natCast_eq_zero]
    exact land_two_pow_ne_zero_iff m i
  | negSucc m =>
    show Int.ofNat (natLdiff (2 ^ i) m) ≠ 0 ↔ (!(Nat.testBit m i)) = true
    constructor
    · intro h
      rw [(natLdiff_two_pow_ne_zero_iff m i).mp (by simpa using h)]
      rfl
    · intro h
      have hb : Nat.testBit m i = false := by
        cases hb2 : Nat.testBit m i
        · rfl
        · rw [hb2] at h
          cases h
      intro hz
      exact (natLdiff_two_pow_ne_zero_iff m i).mpr hb (by simpa using hz)

/-!
## `parseInt` failure law
-/

theorem resolveRadix_some {radix : Nat} (h0 : radix ≠ 0) (cs : List Char) :
    resolveRadix (some radix) cs =
      (radix, if radix = 16 then stripHex cs else cs) := by
  simp only [resolveRadix]
  rw [if_neg h0]
  by_cases h16 : radix = 16
  · subst h16
    rw [if_pos rfl, if_pos rfl]
  · rw [if_neg h16, if_neg h16]

theorem jsParseInt_some_radix (s : String) {radix : Nat} (h0 : radix ≠ 0) :
    jsParseInt s (some radix) =
      parseIntFrom (signSplit (s.data.dropWhile jsWhitespace)).1 radix
        (afterIntroducers s radix) := by
  rw [jsParseInt, resolveRadix_some h0, afterIntroducers]

theorem textStartsWithDigit_false_iff (s : String) (radix : Nat) :
    textStartsWithDigit s radix = false ↔
      ((afterIntroducers s radix).takeWhile (isRadixDigit radix)).isEmpty
        = true := by
  cases h : afterIntroducers s radix with
  | nil => simp [textStartsWithDigit, h]
  | cons c rest =>
    cases hp : isRadixDigit radix c <;>
      simp [textStartsWithDigit, h, List.takeWhile_cons, hp]

theorem jsParseInt_nan_iff (s : String) {radix : Nat}
    (h2 : 2 ≤ radix) (h36 : radix ≤ 36) :
    jsParseInt s (some radix) = JsNumber.nan ↔
      textStartsWithDigit s radix = false := by
  have h0 : radix ≠ 0 := by omega
  have hrange : ¬ (radix < 2 ∨ 36 < radix) := by omega
  rw [jsParseInt_some_radix s h0, parseIntFrom, if_neg hrange,
    textStartsWithDigit_false_iff]
  by_cases hemp : ((afterIntroducers s radix).takeWhile
      (isRadixDigit radix)).isEmpty = true
  · rw [if_pos hemp]
    exact iff_of_true rfl hemp
  · rw [if_neg hemp]
    refine iff_of_false (fun hcontra => ?_) hemp
    rcases hr : roundNatToDouble (digitsValue radix
        ((afterIntroducers s radix).takeWhile (isRadixDigit radix)))
      with _ | m
    · simp only [hr] at hcontra
      split_ifs at hcontra
    · simp only [hr] at hcontra
      cases hcontra

theorem validate_error_cases {r : FlagsRegistry} {v : Int} {e : FlagError}
    (h : Flag.validate r v = Except.error e) :
    e = FlagError.negativeValue v ∨ e = FlagError.unknownFlags := by
  rw [Flag.validate] at h
  split_ifs at h
  · exact Or.inl (Except.error.inj h).symm
  · exact Or.inr (Except.error.inj h).symm

theorem new_ne_cannotParse (r : FlagsRegistry) (v : Int) (s : String)
    (radix : Nat) :
    Flag.new r v ≠ Except.error (FlagError.cannotParse s radix) := by
  intro hc
  cases hval : Flag.validate r v with
  | ok u =>
    cases u
    rw [Flag.new_of_validate_ok hval] at hc
    cases hc
  | error e =>
    rw [Flag.new_of_validate_error hval] at hc
    obtain rfl := Except.error.inj hc
    rcases validate_error_cases hval with h | h <;> cases h

/-!
## Claims
-/

/-- C1 (code bug): on the value with bitmask 2 over the registry
`from("A", "B")` — a value `combine("B")` legitimately produces — calling
`remove("UNKNOWN")` with a name absent from the registry does **not** fail
with an "unknown flag" error: the `!this.has(flagName)` guard returns the
same instance unchanged before the unknown-name check can run. -/
theorem C1_remove_unknown_is_silent :
    (FlagsRegistry.fromKeys ["A", "B"]).get "UNKNOWN" = none ∧
    (FlagsRegistry.fromKeys ["A", "B"]).combine ["B"] =
      Except.ok ⟨FlagsRegistry.fromKeys ["A", "B"], 2⟩ ∧
    Flag.remove ⟨FlagsRegistry.fromKeys ["A", "B"], 2⟩ "UNKNOWN" =
      Except.ok ⟨FlagsRegistry.fromKeys ["A", "B"], 2⟩ := by
  refine ⟨?_, ?_, ?_⟩ <;> decide

/-- C2: constructing a flag value fails with a "negative value" error when
the bitmask is negative, fails with an "unknown flags" error when some bit
set in the bitmask lies outside the union of the registry's bit values, and
every successfully constructed value satisfies the invariant (non-negative,
all bits inside the union); the constructor runs this check synchronously,
and every construction path of the library funnels through it. -/
theorem C2_construction_validates (ks : List String) (v : Int) :
    (v < 0 →
      Flag.new (FlagsRegistry.fromKeys ks) v =
        Except.error (FlagError.negativeValue v)) ∧
    (0 ≤ v →
      (∃ i, v.testBit i = true ∧
        (Flag.knownFlags (FlagsRegistry.fromKeys ks)).testBit i = false) →
      Flag.new (FlagsRegistry.fromKeys ks) v =
        Except.error FlagError.unknownFlags) ∧
    (∀ f, Flag.new (FlagsRegistry.fromKeys ks) v = Except.ok f →
      f.context = FlagsRegistry.fromKeys ks ∧ f.value = v ∧ 0 ≤ f.value ∧
      ∀ i, f.value.testBit i = true →
        (Flag.knownFlags (FlagsRegistry.fromKeys ks)).testBit i = true) := by
  refine ⟨?_, ?_, ?_⟩
  · intro h
    exact Flag.new_of_validate_error (Flag.validate_of_neg h)
  · intro h0 hbit
    obtain ⟨a, rfl⟩ := Int.eq_ofNat_of_zero_le h0
    obtain ⟨i, hvi, hui⟩ := hbit
    rw [Flag.knownFlags_fromKeys] at hui
    rw [Int_testBit_natCast] at hvi hui
    apply Flag.new_of_validate_error
    apply Flag.validate_of_unknown (not_lt.mpr h0)
    rw [Flag.knownFlags_fromKeys]
    show ((natLdiff a (natUnion (FlagsRegistry.unique ks).length) : Nat) : Int) ≠ 0
    rw [Ne, Int.natCast_eq_zero]
    exact natLdiff_ne_zero_of_testBit hvi hui
  · intro f hf
    obtain ⟨hval, rfl⟩ := Flag.new_eq_ok_iff.mp hf
    obtain ⟨h1, h2⟩ := Flag.validate_eq_ok_iff.mp hval
    refine ⟨rfl, rfl, not_lt.mp h1, ?_⟩
    intro i hi
    obtain ⟨a, ha⟩ := Int.eq_ofNat_of_zero_le (not_lt.mp h1)
    rw [ha] at hi h2
    rw [Flag.knownFlags_fromKeys] at h2 ⊢
    rw [Int_testBit_natCast] at hi ⊢
    have : ((natLdiff a (natUnion (FlagsRegistry.unique ks).length) : Nat) : Int)
        = 0 := h2
    rw [Int.natCast_eq_zero] at this
    exact natLdiff_eq_zero_iff.mp this i hi

/-- Witness for C2: over `from("A","B","C","D")` (bits 0–3), the bitmask
`-1` is rejected as negative and the bitmask `16` (bit 4) as unknown. -/
theorem C2_witness :
    Flag.new (FlagsRegistry.fromKeys ["A", "B", "C", "D"]) (-1) =
      Except.error (FlagError.negativeValue (-1)) ∧
    Flag.new (FlagsRegistry.fromKeys ["A", "B", "C", "D"]) 16 =
      Except.error FlagError.unknownFlags := by
  constructor
  · exact (C2_construction_validates ["A", "B", "C", "D"] (-1)).1 (by decide)
  · exact (C2_construction_validates ["A", "B", "C", "D"] 16).2.1 (by decide)
      ⟨4, by decide, by decide⟩

/-- C3: building a registry deduplicates the name sequence keeping the first
occurrence of each name — the key list is duplicate-free, holds exactly the
names of the input, and is ordered by the position of each name's first
occurrence — and the i-th distinct name is assigned (and `get` returns for
it) the bit value `2 ^ i`. -/
theorem C3_registry_assignment (names : List String) :
    ((FlagsRegistry.fromKeys names).keys).Nodup ∧
    (∀ x, x ∈ (FlagsRegistry.fromKeys names).keys ↔ x ∈ names) ∧
    ((FlagsRegistry.fromKeys names).keys).Pairwise
      (fun a b => names.indexOf a < names.indexOf b) ∧
    (∀ i, ∀ hi : i < (FlagsRegistry.fromKeys names).keys.length,
      (FlagsRegistry.fromKeys names).get
          ((FlagsRegistry.fromKeys names).keys.get ⟨i, hi⟩) =
        some ((2 ^ i : Nat) : Int)) := by
  rw [FlagsRegistry.keys_fromKeys]
  refine ⟨FlagsRegistry.nodup_unique names,
    fun x => FlagsRegistry.mem_unique,
    FlagsRegistry.unique_indexOf_pairwise names, ?_⟩
  intro i hi
  rw [FlagsRegistry.get_fromKeys_of_mem
    (List.get_mem (FlagsRegistry.unique names) i hi)]
  rw [List.get_indexOf (FlagsRegistry.nodup_unique names) ⟨i, hi⟩]
  rw [Nat.one_shiftLeft]

/-- Witness for C3: `from("A","B","C","A")` keeps `["A","B","C"]`, and its
third key (index 2, the name `"C"`) gets bit value `2^2 = 4`. -/
theorem C3_witness :
    (FlagsRegistry.fromKeys ["A", "B", "C", "A"]).keys = ["A", "B", "C"] ∧
    (FlagsRegistry.fromKeys ["A", "B", "C", "A"]).get
        ((FlagsRegistry.fromKeys ["A", "B", "C", "A"]).keys.get
          ⟨2, by decide⟩) =
      some ((2 ^ 2 : Nat) : Int) :=
  ⟨by decide, (C3_registry_assignment ["A", "B", "C", "A"]).2.2.2 2 (by decide)⟩

/-- C4: `combine` returns, when every given name is registered, a flag whose
bitmask is the bitwise OR (`orValues`) of the names' bit values starting
from zero; it returns an "unknown flag" error naming an offending name when
some given name is unregistered (an `Except.error`, so no value object is
ever exposed); and `orValues` is invariant under permutation of the names
and under duplicate names, and is `0` on the empty list. -/
theorem C4_combine (ks names : List String) :
    ((∀ n ∈ names, n ∈ (FlagsRegistry.fromKeys ks).keys) →
      ∃ f, (FlagsRegistry.fromKeys ks).combine names = Except.ok f ∧
        f.context = FlagsRegistry.fromKeys ks ∧
        f.value = orValues (FlagsRegistry.fromKeys ks) names) ∧
    ((∃ n ∈ names, n ∉ (FlagsRegistry.fromKeys ks).keys) →
      ∃ m, m ∈ names ∧ m ∉ (FlagsRegistry.fromKeys ks).keys ∧
        (FlagsRegistry.fromKeys ks).combine names =
          Except.error (FlagError.flagNotFound m)) ∧
    (∀ names₂, names.Perm names₂ →
      orValues (FlagsRegistry.fromKeys ks) names =
        orValues (FlagsRegistry.fromKeys ks) names₂) ∧
    (∀ n ∈ names,
      orValues (FlagsRegistry.fromKeys ks) (n :: names) =
        orValues (FlagsRegistry.fromKeys ks) names) ∧
    orValues (FlagsRegistry.fromKeys ks) [] = 0 := by
  rw [FlagsRegistry.keys_fromKeys]
  refine ⟨?_, ?_, ?_, ?_, rfl⟩
  · intro h
    exact ⟨⟨FlagsRegistry.fromKeys ks,
      orValues (FlagsRegistry.fromKeys ks) names⟩,
      combine_fromKeys_of_known h, rfl, rfl⟩
  · intro h
    obtain ⟨m, hm, hmk, heq⟩ := foldlM_combine_unknown ks names h 0
    refine ⟨m, hm, hmk, ?_⟩
    rw [FlagsRegistry.combine, heq]
    rfl
  · intro names₂ hperm
    rw [orValues_fromKeys, orValues_fromKeys]
    exact congrArg _ (natOrValues_perm ks hperm)
  · intro n hn
    rw [orValues_fromKeys, orValues_fromKeys]
    exact congrArg _ (natOrValues_cons_mem ks hn)

/-- Witness for C4: over `from("A","B")`, combining `("A","B")` succeeds
with bitmask `orValues` (which evaluates to 3), and the OR is the same for
the argument order `("B","A")`. -/
theorem C4_witness :
    (∃ f, (FlagsRegistry.fromKeys ["A", "B"]).combine ["A", "B"] =
        Except.ok f ∧
      f.context = FlagsRegistry.fromKeys ["A", "B"] ∧
      f.value = orValues (FlagsRegistry.fromKeys ["A", "B"]) ["A", "B"]) ∧
    orValues (FlagsRegistry.fromKeys ["A", "B"]) ["A", "B"] =
      orValues (FlagsRegistry.fromKeys ["A", "B"]) ["B", "A"] ∧
    orValues (FlagsRegistry.fromKeys ["A", "B"]) ["A", "B"] = 3 :=
  ⟨(C4_combine ["A", "B"] ["A", "B"]).1 (by decide),
   (C4_combine ["A", "B"] ["A", "B"]).2.2.1 ["B", "A"]
     (List.Perm.swap "B" "A" []),
   by decide⟩

/-- C5: for a flag value bound to a registry and a registered name `n`:
if `n`'s bit is set (`has`), `add(n)` returns the very same instance; if it
is not set, `remove(n)` returns the very same instance; and a flag obtained
from a successful `add(n)` (resp. `remove(n)`) is itself a fixed point of
`add(n)` (resp. `remove(n)`), so repeating the operation leaves the bitmask
unchanged. The original instance is untouched when a new one is returned:
the source builds a brand-new `Flag` from `this.value` without mutation,
which the purely functional embedding reflects exactly. -/
theorem C5_noop_idempotence (ks : List String) (f : Flag) (n : String)
    (hctx : f.context = FlagsRegistry.fromKeys ks)
    (hn : n ∈ (FlagsRegistry.fromKeys ks).keys) :
    (f.has n = true → f.add n = Except.ok f) ∧
    (f.has n = false → f.remove n = Except.ok f) ∧
    (∀ g, f.add n = Except.ok g → g.add n = Except.ok g) ∧
    (∀ g, f.remove n = Except.ok g → g.remove n = Except.ok g) := by
  have hn2 : n ∈ FlagsRegistry.unique ks := by
    rw [← FlagsRegistry.keys_fromKeys]
    exact hn
  have hget : f.context.get n =
      some ((1 <<< (FlagsRegistry.unique ks).indexOf n : Nat) : Int) := by
    rw [hctx]
    exact FlagsRegistry.get_fromKeys_of_mem hn2
  have hwne : (1 <<< (FlagsRegistry.unique ks).indexOf n : Nat) ≠ 0 := by
    rw [Nat.one_shiftLeft]
    exact Nat.pos_iff_ne_zero.mp (Nat.two_pow_pos _)
  have hvne := get_fromKeys_bit_ne_zero hn2
  refine ⟨?_, ?_, ?_, ?_⟩
  · intro h
    rw [Flag.add, if_pos h]
  · intro h
    rw [Flag.remove, if_pos (by simp [h])]
  · intro g hg
    cases hhas : f.has n with
    | true =>
      rw [Flag.add, if_pos hhas] at hg
      obtain rfl := Except.ok.inj hg
      rw [Flag.add, if_pos hhas]
    | false =>
      rw [Flag.add, if_neg (by simp [hhas])] at hg
      simp only [hget] at hg
      rw [if_neg hvne] at hg
      obtain ⟨hval, rfl⟩ := Flag.new_eq_ok_iff.mp hg
      have hhas2 : (⟨f.context, bigOr f.value
          ((1 <<< (FlagsRegistry.unique ks).indexOf n : Nat) : Int)⟩ :
            Flag).has n = true := by
        rw [has_of_get_some ⟨f.context, bigOr f.value
          ((1 <<< (FlagsRegistry.unique ks).indexOf n : Nat) : Int)⟩
          hget hvne]
        show (bigAnd (bigOr f.value _) _ != 0) = true
        rw [bne_iff_ne]
        exact bigAnd_bigOr_self_ne_zero f.value hwne
      rw [Flag.add, if_pos hhas2]
  · intro g hg
    cases hhas : f.has n with
    | false =>
      rw [Flag.remove, if_pos (by simp [hhas])] at hg
      obtain rfl := Except.ok.inj hg
      rw [Flag.remove, if_pos (by simp [hhas])]
    | true =>
      rw [Flag.remove, if_neg (by simp [hhas])] at hg
      simp only [hget] at hg
      rw [if_neg hvne] at hg
      obtain ⟨hval, rfl⟩ := Flag.new_eq_ok_iff.mp hg
      have hhas2 : (⟨f.context, bigAnd f.value (bigNot
          ((1 <<< (FlagsRegistry.unique ks).indexOf n : Nat) : Int))⟩ :
            Flag).has n = false := by
        rw [has_of_get_some ⟨f.context, bigAnd f.value (bigNot
          ((1 <<< (FlagsRegistry.unique ks).indexOf n : Nat) : Int))⟩
          hget hvne]
        show (bigAnd (bigAnd f.value (bigNot _)) _ != 0) = false
        rw [bigAnd_clear_self_eq_zero]
        rfl
      rw [Flag.remove, if_pos (by simp [hhas2])]

/-- Witness for C5: over `from("A","B")` with bitmask 2 (only `B` set),
`add("B")` and `remove("A")` both return the same instance. -/
theorem C5_witness :
    Flag.add ⟨FlagsRegistry.fromKeys ["A", "B"], 2⟩ "B" =
      Except.ok ⟨FlagsRegistry.fromKeys ["A", "B"], 2⟩ ∧
    Flag.remove ⟨FlagsRegistry.fromKeys ["A", "B"], 2⟩ "A" =
      Except.ok ⟨FlagsRegistry.fromKeys ["A", "B"], 2⟩ :=
  ⟨(C5_noop_idempotence ["A", "B"] ⟨FlagsRegistry.fromKeys ["A", "B"], 2⟩
      "B" rfl (by decide)).1 (by decide),
   (C5_noop_idempotence ["A", "B"] ⟨FlagsRegistry.fromKeys ["A", "B"], 2⟩
      "A" rfl (by decide)).2.1 (by decide)⟩

/-- C6 counterexample: the text `"1x"` is not an integer numeral in radix 10
(trailing `x`), yet `parse("1x", 10)` on `from("A")` does not fail with an
"unparseable input" error — `parseInt` reads the prefix `"1"` and the call
succeeds with bitmask 1. So `parse` does not fail exactly when the text
cannot be interpreted as an integer in the radix. -/
theorem C6_counterexample :
    isIntegerTextInRadix "1x" 10 = false ∧
    (FlagsRegistry.fromKeys ["A"]).parse (ParseValue.str "1x") (some 10) =
      Except.ok ⟨FlagsRegistry.fromKeys ["A"], 1⟩ :=
  ⟨by decide, by decide⟩

/-- C6 (amended): with an explicit radix in 2..36, `parse` on a text fails
with an "unparseable input" error exactly when the text — after leading
whitespace (the ECMAScript set), an optional sign, and (for radix 16) an
optional `0x`/`0X` prefix — does not begin with a digit valid in the radix.
Otherwise `parseInt` reads the longest valid digit prefix (trailing
characters are ignored), rounds its value to the nearest double, and either
the finite result is adopted as the bitmask and validated like any other
value, or — when the value overflowed to an infinity — `BigInt` throws a
`RangeError`. -/
theorem C6_parse_prefix_semantics (ks : List String) (s : String)
    (radix : Nat) (h2 : 2 ≤ radix) (h36 : radix ≤ 36) :
    ((FlagsRegistry.fromKeys ks).parse (ParseValue.str s) (some radix) =
        Except.error (FlagError.cannotParse s radix) ↔
      textStartsWithDigit s radix = false) ∧
    (textStartsWithDigit s radix = true →
      (∃ k, jsParseInt s (some radix) = JsNumber.finite k ∧
        (FlagsRegistry.fromKeys ks).parse (ParseValue.str s) (some radix) =
          Flag.new (FlagsRegistry.fromKeys ks) k) ∨
      ((jsParseInt s (some radix) = JsNumber.posInf ∨
          jsParseInt s (some radix) = JsNumber.negInf) ∧
        (FlagsRegistry.fromKeys ks).parse (ParseValue.str s) (some radix) =
          Except.error FlagError.rangeError)) := by
  have hnan := jsParseInt_nan_iff s h2 h36
  constructor
  · constructor
    · intro hp
      cases hjn : jsParseInt s (some radix) with
      | nan => exact hnan.mp hjn
      | posInf =>
        have hpk : (FlagsRegistry.fromKeys ks).parse (ParseValue.str s)
            (some radix) = Except.error FlagError.rangeError := by
          simp only [FlagsRegistry.parse, hjn]
        rw [hpk] at hp
        cases Except.error.inj hp
      | negInf =>
        have hpk : (FlagsRegistry.fromKeys ks).parse (ParseValue.str s)
            (some radix) = Except.error FlagError.rangeError := by
          simp only [FlagsRegistry.parse, hjn]
        rw [hpk] at hp
        cases Except.error.inj hp
      | finite k =>
        have hpk : (FlagsRegistry.fromKeys ks).parse (ParseValue.str s)
            (some radix) = Flag.new (FlagsRegistry.fromKeys ks) k := by
          simp only [FlagsRegistry.parse, hjn]
        rw [hpk] at hp
        exact absurd hp (new_ne_cannotParse _ _ _ _)
    · intro ht
      have hjn := hnan.mpr ht
      simp only [FlagsRegistry.parse, hjn]
      rfl
  · intro ht
    cases hjn : jsParseInt s (some radix) with
    | nan =>
      rw [hnan.mp hjn] at ht
      cases ht
    | posInf =>
      right
      exact ⟨Or.inl rfl, by simp only [FlagsRegistry.parse, hjn]⟩
    | negInf =>
      right
      exact ⟨Or.inr rfl, by simp only [FlagsRegistry.parse, hjn]⟩
    | finite k =>
      left
      exact ⟨k, rfl, by simp only [FlagsRegistry.parse, hjn]⟩

/-- Witness for C6 (amended): `parse("x", 10)` on `from("A")` fails as
unparseable, while `parse("zz", 36)` reads the base-36 digits. -/
theorem C6_witness :
    ((FlagsRegistry.fromKeys ["A"]).parse (ParseValue.str "x") (some 10) =
      Except.error (FlagError.cannotParse "x" 10)) ∧
    ((∃ k, jsParseInt "zz" (some 36) = JsNumber.finite k ∧
        (FlagsRegistry.fromKeys ["A"]).parse (ParseValue.str "zz") (some 36) =
          Flag.new (FlagsRegistry.fromKeys ["A"]) k) ∨
      ((jsParseInt "zz" (some 36) = JsNumber.posInf ∨
          jsParseInt "zz" (some 36) = JsNumber.negInf) ∧
        (FlagsRegistry.fromKeys ["A"]).parse (ParseValue.str "zz") (some 36) =
          Except.error FlagError.rangeError)) :=
  ⟨((C6_parse_prefix_semantics ["A"] "x" 10 (by decide) (by decide)).1).mpr
     (by decide),
   (C6_parse_prefix_semantics ["A"] "zz" 36 (by decide) (by decide)).2
     (by decide)⟩

/-- C7: for any validly constructed flag value `f`, `parse(f.value)` — the
arbitrary-precision-integer overload — succeeds and yields a flag value with
the exact same bitmask: the integer is adopted directly as the bitmask and
passes validation because `f`'s bitmask already did. -/
theorem C7_parse_roundtrip (f : Flag)
    (h : Flag.validate f.context f.value = Except.ok ()) :
    f.context.parse (ParseValue.big f.value) none =
      Except.ok ⟨f.context, f.value⟩ := by
  show Flag.new f.context f.value = _
  exact Flag.new_of_validate_ok h

/-- Witness for C7: the flag with bitmask 3 over `from("A","B")` round-trips
through `parse`. -/
theorem C7_witness :
    (FlagsRegistry.fromKeys ["A", "B"]).parse (ParseValue.big 3) none =
      Except.ok ⟨FlagsRegistry.fromKeys ["A", "B"], 3⟩ :=
  C7_parse_roundtrip ⟨FlagsRegistry.fromKeys ["A", "B"], 3⟩ (by decide)

/-- C8: the alias is the literal `EMPTY_FLAG` when the bitmask is zero, and
otherwise lists exactly the registered names whose bit value `v` satisfies
`bitmask AND v = v`, in the registry's insertion order, joined with `+` and
wrapped in square brackets; and `toString()` is always
`Flag(<alias>: <value>)` with the bitmask printed in decimal (`Int`'s
decimal `ToString`). -/
theorem C8_alias_format (ks : List String) (f : Flag)
    (hctx : f.context = FlagsRegistry.fromKeys ks) :
    (f.value = 0 → f.«alias» = "EMPTY_FLAG") ∧
    (f.value ≠ 0 → f.«alias» =
      "[" ++ String.intercalate "+"
        (f.context.keys.filter (fun n =>
          match f.context.get n with
          | some v => bigAnd f.value v == v
          | none => false)) ++ "]") ∧
    Flag.toString f =
      "Flag(" ++ f.«alias» ++ ": " ++ ToString.toString f.value ++ ")" := by
  refine ⟨?_, ?_, rfl⟩
  · intro h0
    have hb : (f.value == 0) = true := by simp [h0]
    rw [Flag.«alias», if_pos hb]
  · intro hne
    have hb : ¬ ((f.value == 0) = true) := by simp [hne]
    have hnd : (f.context.flags.map Prod.fst).Nodup := by
      have : (FlagsRegistry.fromKeys ks).keys.Nodup := by
        rw [FlagsRegistry.keys_fromKeys]
        exact FlagsRegistry.nodup_unique ks
      rw [hctx]
      exact this
    rw [Flag.«alias», if_neg hb]
    exact congrArg (fun L => "[" ++ String.intercalate "+" L ++ "]")
      (filter_assoc_keys (fun v => bigAnd f.value v == v) f.context.flags hnd)

/-- Witness for C8: over `from("A","B","C","D")`, bitmask 0 gets the
`EMPTY_FLAG` alias, and bitmask 9 (bits 0 and 3) lists `A` and `D`. -/
theorem C8_witness :
    Flag.«alias» ⟨FlagsRegistry.fromKeys ["A", "B"], 0⟩ = "EMPTY_FLAG" ∧
    Flag.«alias» ⟨FlagsRegistry.fromKeys ["A", "B", "C", "D"], 9⟩ =
      "[" ++ String.intercalate "+"
        ((FlagsRegistry.fromKeys ["A", "B", "C", "D"]).keys.filter (fun n =>
          match (FlagsRegistry.fromKeys ["A", "B", "C", "D"]).get n with
          | some v => bigAnd 9 v == v
          | none => false)) ++ "]" ∧
    Flag.«alias» ⟨FlagsRegistry.fromKeys ["A", "B", "C", "D"], 9⟩ =
      "[A+D]" :=
  ⟨(C8_alias_format ["A", "B"]
      ⟨FlagsRegistry.fromKeys ["A", "B"], 0⟩ rfl).1 rfl,
   (C8_alias_format ["A", "B", "C", "D"]
      ⟨FlagsRegistry.fromKeys ["A", "B", "C", "D"], 9⟩ rfl).2.1 (by decide),
   by decide⟩

/-- C9: `get` on an unregistered name returns an absent result (it is total,
so it never raises), and `has` is true exactly when the name is registered
AND its bit is set in the bitmask — in particular `has` is false, rather
than failing, both for unknown names and for known-but-unset ones. -/
theorem C9_lookup_miss (ks : List String) (f : Flag) (s : String)
    (hctx : f.context = FlagsRegistry.fromKeys ks) :
    (s ∉ (FlagsRegistry.fromKeys ks).keys →
      (FlagsRegistry.fromKeys ks).get s = none) ∧
    (f.has s = true ↔ s ∈ (FlagsRegistry.fromKeys ks).keys ∧
      Int.testBit f.value
        ((FlagsRegistry.fromKeys ks).keys.indexOf s) = true) := by
  rw [FlagsRegistry.keys_fromKeys]
  constructor
  · intro hs
    exact FlagsRegistry.get_fromKeys_of_not_mem hs
  · by_cases hs : s ∈ FlagsRegistry.unique ks
    · have hget : f.context.get s =
          some ((1 <<< (FlagsRegistry.unique ks).indexOf s : Nat) : Int) := by
        rw [hctx]
        exact FlagsRegistry.get_fromKeys_of_mem hs
      have hv : ((1 <<< (FlagsRegistry.unique ks).indexOf s : Nat) : Int) =
          ((2 ^ (FlagsRegistry.unique ks).indexOf s : Nat) : Int) := by
        rw [Nat.one_shiftLeft]
      rw [has_of_get_some f hget (get_fromKeys_bit_ne_zero hs), bne_iff_ne,
        hv, bigAnd_two_pow_ne_zero_iff]
      constructor
      · intro h
        exact ⟨hs, h⟩
      · intro h
        exact h.2
    · have hget : f.context.get s = none := by
        rw [hctx]
        exact FlagsRegistry.get_fromKeys_of_not_mem hs
      have hhas : f.has s = false := by
        simp [Flag.has, hget]
      rw [hhas]
      simp [hs]

/-- Witness for C9: over `from("A","B")` with bitmask 2, `get("NOPE")` is
absent, `has("NOPE")` is false, `has("A")` is false (known but unset) and
`has("B")` is true. -/
theorem C9_witness :
    (FlagsRegistry.fromKeys ["A", "B"]).get "NOPE" = none ∧
    Flag.has ⟨FlagsRegistry.fromKeys ["A", "B"], 2⟩ "NOPE" = false ∧
    Flag.has ⟨FlagsRegistry.fromKeys ["A", "B"], 2⟩ "B" = true := by
  refine ⟨(C9_lookup_miss ["A", "B"]
      ⟨FlagsRegistry.fromKeys ["A", "B"], 2⟩ "NOPE" rfl).1 (by decide),
    ?_, (C9_lookup_miss ["A", "B"]
      ⟨FlagsRegistry.fromKeys ["A", "B"], 2⟩ "B" rfl).2.mpr
        ⟨by decide, by decide⟩⟩
  cases hh : Flag.has ⟨FlagsRegistry.fromKeys ["A", "B"], 2⟩ "NOPE"
  · rfl
  · exact absurd ((C9_lookup_miss ["A", "B"]
      ⟨FlagsRegistry.fromKeys ["A", "B"], 2⟩ "NOPE" rfl).2.mp hh).1
      (by decide)

/-- C10: `empty()` always succeeds with bitmask 0, and `combine`, `add` and
`remove` applied only to registered names (on validly constructed flags)
always return `ok` — the bitmasks they build stay non-negative and inside
the registry's bit union, so the constructor's "negative value" and
"unknown flags" error branches are unreachable on these paths. -/
theorem C10_safe_construction (ks : List String) :
    (∃ f, (FlagsRegistry.fromKeys ks).empty = Except.ok f ∧ f.value = 0) ∧
    (∀ names, (∀ n ∈ names, n ∈ (FlagsRegistry.fromKeys ks).keys) →
      ∃ f, (FlagsRegistry.fromKeys ks).combine names = Except.ok f) ∧
    (∀ (f : Flag) (n : String), f.context = FlagsRegistry.fromKeys ks →
      Flag.validate f.context f.value = Except.ok () →
      n ∈ (FlagsRegistry.fromKeys ks).keys →
      (∃ g, f.add n = Except.ok g) ∧ (∃ g, f.remove n = Except.ok g)) := by
  refine ⟨?_, ?_, ?_⟩
  · refine ⟨⟨FlagsRegistry.fromKeys ks, 0⟩, ?_, rfl⟩
    exact Flag.new_of_validate_ok
      ((Flag.validate_fromKeys_natCast ks 0).mpr (natLdiff_zero_left _))
  · intro names h
    rw [FlagsRegistry.keys_fromKeys] at h
    exact ⟨_, combine_fromKeys_of_known h⟩
  · intro f n hctx hval hn
    rw [FlagsRegistry.keys_fromKeys] at hn
    rw [hctx] at hval
    obtain ⟨h1, h2⟩ := Flag.validate_eq_ok_iff.mp hval
    obtain ⟨a, ha⟩ := Int.eq_ofNat_of_zero_le (not_lt.mp h1)
    have hcontained : natLdiff a
        (natUnion (FlagsRegistry.unique ks).length) = 0 := by
      have := (Flag.validate_fromKeys_natCast ks a).mp (by rw [← ha]; exact hval)
      exact this
    have hget : f.context.get n =
        some ((1 <<< (FlagsRegistry.unique ks).indexOf n : Nat) : Int) := by
      rw [hctx]
      exact FlagsRegistry.get_fromKeys_of_mem hn
    have hvne := get_fromKeys_bit_ne_zero hn
    have hwcont : natLdiff (1 <<< (FlagsRegistry.unique ks).indexOf n)
        (natUnion (FlagsRegistry.unique ks).length) = 0 :=
      natLdiff_shiftLeft_natUnion (List.indexOf_lt_length.mpr hn)
    constructor
    · cases hhas : f.has n with
      | true =>
        refine ⟨f, ?_⟩
        rw [Flag.add, if_pos hhas]
      | false =>
        refine ⟨⟨f.context, bigOr f.value
          ((1 <<< (FlagsRegistry.unique ks).indexOf n : Nat) : Int)⟩, ?_⟩
        rw [Flag.add, if_neg (by simp [hhas])]
        simp only [hget]
        rw [if_neg hvne]
        have : Flag.validate f.context (bigOr f.value
            ((1 <<< (FlagsRegistry.unique ks).indexOf n : Nat) : Int)) =
            Except.ok () := by
          rw [hctx, ha]
          exact (Flag.validate_fromKeys_natCast ks
            (a ||| 1 <<< (FlagsRegistry.unique ks).indexOf n)).mpr
            (natLdiff_lor_eq_zero hcontained hwcont)
        exact Flag.new_of_validate_ok this
    · cases hhas : f.has n with
      | false =>
        refine ⟨f, ?_⟩
        rw [Flag.remove, if_pos (by simp [hhas])]
      | true =>
        refine ⟨⟨f.context, bigAnd f.value (bigNot
          ((1 <<< (FlagsRegistry.unique ks).indexOf n : Nat) : Int))⟩, ?_⟩
        rw [Flag.remove, if_neg (by simp [hhas])]
        simp only [hget]
        rw [if_neg hvne]
        have : Flag.validate f.context (bigAnd f.value (bigNot
            ((1 <<< (FlagsRegistry.unique ks).indexOf n : Nat) : Int))) =
            Except.ok () := by
          rw [hctx, ha]
          exact (Flag.validate_fromKeys_natCast ks
            (natLdiff a (1 <<< (FlagsRegistry.unique ks).indexOf n))).mpr
            (natLdiff_natLdiff_eq_zero _ hcontained)
        exact Flag.new_of_validate_ok this

/-- Witness for C10: over `from("A","B")`, `empty()` succeeds,
`combine("A","B")` succeeds, `add("A")` on the empty flag succeeds, and
`remove("B")` on bitmask 3 succeeds. -/
theorem C10_witness :
    (∃ f, (FlagsRegistry.fromKeys ["A", "B"]).empty = Except.ok f ∧
      f.value = 0) ∧
    (∃ f, (FlagsRegistry.fromKeys ["A", "B"]).combine ["A", "B"] =
      Except.ok f) ∧
    (∃ g, Flag.add ⟨FlagsRegistry.fromKeys ["A", "B"], 0⟩ "A" =
      Except.ok g) ∧
    (∃ g, Flag.remove ⟨FlagsRegistry.fromKeys ["A", "B"], 3⟩ "B" =
      Except.ok g) :=
  ⟨(C10_safe_construction ["A", "B"]).1,
   (C10_safe_construction ["A", "B"]).2.1 ["A", "B"] (by decide),
   ((C10_safe_construction ["A", "B"]).2.2
     ⟨FlagsRegistry.fromKeys ["A", "B"], 0⟩ "A" rfl (by decide)
     (by decide)).1,
   ((C10_safe_construction ["A", "B"]).2.2
     ⟨FlagsRegistry.fromKeys ["A", "B"], 3⟩ "B" rfl (by decide)
     (by decide)).2⟩

end BitwiseFlag
